import Mathlib

/-!
# Verification of the aster hedge-trading dashboard

Shallow embedding of the core logic of the repository:

* `src/lib/store.ts` — the persisted account/order store and its mutations;
* `src/app/page.tsx` — `handleOpen`, `handleClose`, `isOpen`, the per-symbol
  precision table and the number-formatting helpers;
* `src/services/api.ts` — `closeFuturesPosition` (error-swallowing close);
* `src/lib/common.ts` — the rotation grouping engine `generateGroups`.

JavaScript numbers are modelled as rationals (`ℚ`); timestamps as integers;
network calls are modelled by injected oracles (`SubmitReq → Bool` for the
exchange accepting/rejecting an order, `ℕ → ℕ` for `Math.random` draws), so
the orchestration logic becomes a pure function of its inputs.
-/

/-- Model of `src/lib/types.ts` `User`: a configured account with rolling statistics
(`txs` = trade count, `vol` = cumulative volume). -/
structure User where
  name : String
  apiKey : String
  apiSecret : String
  txs : ℚ
  vol : ℚ
  deriving DecidableEq, Repr

/-- Model of `src/lib/types.ts` `HedgeSymbol`. -/
inductive HedgeSymbol where
  | BTC
  | ETH
  | SOL
  deriving DecidableEq, Repr

/-- Model of `src/lib/types.ts` `HedgeOrderStatus`. -/
inductive HedgeOrderStatus where
  | draft
  | open
  | closed
  deriving DecidableEq, Repr

/-- Model of `src/lib/types.ts` `HedgeOrder`. -/
structure HedgeOrder where
  id : String
  symbol : HedgeSymbol
  primaryAccount : String
  hedgeAccount : String
  hedgeAccount2 : Option String
  amount : ℚ
  takeProfit : ℚ
  stopLoss : ℚ
  status : HedgeOrderStatus
  createdAt : String
  updatedAt : String
  deriving DecidableEq, Repr

/-- Model of `src/lib/types.ts` `Partial<HedgeOrderDraft>`: the update payload of
`updateOrder`; absent fields are `none`. -/
structure HedgeOrderDraftUpdates where
  symbol : Option HedgeSymbol := none
  primaryAccount : Option String := none
  hedgeAccount : Option String := none
  hedgeAccount2 : Option (Option String) := none
  amount : Option ℚ := none
  takeProfit : Option ℚ := none
  stopLoss : Option ℚ := none
  deriving DecidableEq, Repr

/-- Model of `src/lib/store.ts` `updateUser`: bump `vol` by the given amount and `txs`
by one on every user whose `name` matches; all other users are untouched. -/
def updateUserF (users : List User) (name : String) (vol : ℚ) : List User :=
  users.map fun u =>
    if u.name = name then { u with vol := u.vol + vol, txs := u.txs + 1 } else u

/-- The JS spread `{...order, ...updates}`: present fields of the partial
draft overwrite the order's fields. -/
def applyDraftUpdates (o : HedgeOrder) (d : HedgeOrderDraftUpdates) : HedgeOrder :=
  { o with
    symbol := d.symbol.getD o.symbol
    primaryAccount := d.primaryAccount.getD o.primaryAccount
    hedgeAccount := d.hedgeAccount.getD o.hedgeAccount
    hedgeAccount2 := d.hedgeAccount2.getD o.hedgeAccount2
    amount := d.amount.getD o.amount
    takeProfit := d.takeProfit.getD o.takeProfit
    stopLoss := d.stopLoss.getD o.stopLoss }

/-- Model of `src/lib/store.ts` `updateOrder`: merge the partial draft into the order
with the matching `id` and stamp `updatedAt`; other orders are untouched. -/
def updateOrderF (orders : List HedgeOrder) (id : String)
    (d : HedgeOrderDraftUpdates) (timestamp : String) : List HedgeOrder :=
  orders.map fun o =>
    if o.id = id then { applyDraftUpdates o d with updatedAt := timestamp } else o

/-- Model of `src/lib/store.ts` `setOrderStatus`. -/
def setOrderStatusF (orders : List HedgeOrder) (id : String)
    (status : HedgeOrderStatus) (timestamp : String) : List HedgeOrder :=
  orders.map fun o =>
    if o.id = id then { o with status := status, updatedAt := timestamp } else o

/-- Model of `src/lib/store.ts` `deleteOrder`. -/
def deleteOrderF (orders : List HedgeOrder) (id : String) : List HedgeOrder :=
  orders.filter fun o => o.id ≠ id

/-- Entry type of `src/app/page.tsx` `SYMBOL_PRECISION`: static per-symbol decimal precision
table (price digits, quantity digits). -/
structure SymbolPrecision where
  price : ℕ
  quantity : ℕ
  deriving DecidableEq, Repr

/-- Model of `src/app/page.tsx` `SYMBOL_PRECISION` (lines 30–34). -/
def SYMBOL_PRECISION : HedgeSymbol → SymbolPrecision
  | .BTC => ⟨1, 4⟩
  | .ETH => ⟨2, 4⟩
  | .SOL => ⟨3, 3⟩

/-- Numeric value of `Number.prototype.toFixed(d)` followed by
`trimTrailingZeros` (`src/app/page.tsx` `formatWithPrecision`): `toFixed`
picks the integer `n` minimising `|n / 10^d - x|`, ties taking the larger
`n`, i.e. `n = ⌊x·10^d + 1/2⌋`; stripping trailing zeros after the decimal
point does not change the numeric value when `d ≥ 1`, which holds for every
entry of `SYMBOL_PRECISION`. -/
def formatWithPrecisionVal (x : ℚ) (d : ℕ) : ℚ :=
  (⌊x * 10 ^ d + 1 / 2⌋ : ℚ) / 10 ^ d

/-- Model of `src/app/page.tsx` `formatQuantityForSymbol` (numeric value): `Math.abs`
then `formatWithPrecision` at the symbol's quantity precision. -/
def formatQuantityVal (symbol : HedgeSymbol) (amount : ℚ) : ℚ :=
  formatWithPrecisionVal |amount| (SYMBOL_PRECISION symbol).quantity

/-- Model of `src/app/page.tsx` `formatPriceForSymbol` (numeric value). -/
def formatPriceVal (symbol : HedgeSymbol) (price : ℚ) : ℚ :=
  formatWithPrecisionVal price (SYMBOL_PRECISION symbol).price

/-- The formatting the spec describes, stated from the spec's words for
comparison: "truncation toward fewer decimals", i.e. dropping the digits
beyond the precision (toward zero for non-negative inputs). -/
def truncWithPrecisionVal (x : ℚ) (d : ℕ) : ℚ :=
  (⌊x * 10 ^ d⌋ : ℚ) / 10 ^ d

/-- Model of `src/lib/types.ts` `PositionSide`. -/
inductive PositionSide where
  | BOTH
  | LONG
  | SHORT
  deriving DecidableEq, Repr

/-- Model of `src/lib/types.ts` `AccountPosition` (the fields the core logic reads). -/
structure AccountPosition where
  symbol : String
  positionAmt : ℚ
  positionSide : PositionSide
  updateTime : ℤ
  deriving DecidableEq, Repr

/-- Value of `mainPosition?.positionAmt || 0` — the position size of an optional
position, zero when absent. -/
def posAmtOr0 : Option AccountPosition → ℚ
  | none => 0
  | some p => p.positionAmt

/-- Model of `src/app/page.tsx` line 478: the derived open/closed state of a hedge
order, from the primary and hedge accounts' live positions for its symbol. -/
def isOpenB (mainPos hedgePos : Option AccountPosition) : Bool :=
  decide (0 < |posAmtOr0 mainPos|) && decide (0 < |posAmtOr0 hedgePos|)

/-- The reconciler condition as the spec states it (refinement target for the
derived trade state): both signed sizes non-zero, negated sum within 0.001,
and last-update timestamps within 2000 ms. -/
def specFullyOpen (a b : AccountPosition) : Prop :=
  a.positionAmt ≠ 0 ∧ b.positionAmt ≠ 0 ∧
    |a.positionAmt + b.positionAmt| ≤ 1 / 1000 ∧ |a.updateTime - b.updateTime| ≤ 2000

instance (a b : AccountPosition) : Decidable (specFullyOpen a b) := by
  unfold specFullyOpen
  infer_instance

/-- Model of `src/services/api.ts` `FuturesOrderSide`. -/
inductive FuturesOrderSide where
  | BUY
  | SELL
  deriving DecidableEq, Repr

/-- Computation `closingSide = entrySide === "BUY" ? "SELL" : "BUY"`. -/
def oppositeSide : FuturesOrderSide → FuturesOrderSide
  | .BUY => .SELL
  | .SELL => .BUY

/-- The order types `handleOpen` submits (`src/app/page.tsx`). -/
inductive FuturesOrderType where
  | MARKET
  | TAKE_PROFIT_MARKET
  | STOP_MARKET
  deriving DecidableEq, Repr

/-- A request passed to `submitFuturesOrder` (`src/services/api.ts`), with
the fields that vary between the calls in `handleOpen`; the constant
transport fields (`positionSide: "BOTH"`, `workingType: "MARK_PRICE"`) are
omitted. Quantities and trigger prices are carried as their numeric values
(the strings produced by `formatQuantityForSymbol`/`formatPriceForSymbol`
denote exactly these rationals). -/
structure SubmitReq where
  account : String
  side : FuturesOrderSide
  reqType : FuturesOrderType
  quantity : Option ℚ
  stopPrice : Option ℚ
  closePosition : Bool
  deriving DecidableEq, Repr

/-- The error conditions `handleOpen` surfaces through `setFormError`. -/
inductive OpenError where
  | leverageMismatch
  | invalidAmount
  | insufficientMargin (ceiling : ℚ)
  | priceUnavailable
  | credentialsMissing (account : String)
  | legSubmissionFailed
  deriving DecidableEq, Repr

/-- Lookup in `userMap` (`src/app/page.tsx` lines 169–175): the map is built by
`map.set(user.name, user)` over the list, so a later entry with the same name
overwrites an earlier one. -/
def lookupUser (users : List User) (name : String) : Option User :=
  users.foldl (fun acc u => if u.name = name then some u else acc) none

/-- The take-profit and stop-loss trigger prices of one leg
(`src/app/page.tsx` lines 397–407): raw prices from the entry price, the
order's percentages and the attempt's leverage, kept only when strictly
positive, rounded to the symbol's price precision. -/
def legTpSl (entrySide : FuturesOrderSide) (price takeProfitPct stopLossPct lev : ℚ)
    (symbol : HedgeSymbol) : Option ℚ × Option ℚ :=
  let takeProfitPriceRaw :=
    match entrySide with
    | .BUY => price * (1 + takeProfitPct / 100 / lev)
    | .SELL => price * (1 - takeProfitPct / 100 / lev)
  let stopLossPriceRaw :=
    match entrySide with
    | .BUY => price * (1 - stopLossPct / 100 / lev)
    | .SELL => price * (1 + stopLossPct / 100 / lev)
  ((if 0 < takeProfitPriceRaw then some (formatPriceVal symbol takeProfitPriceRaw) else none),
   (if 0 < stopLossPriceRaw then some (formatPriceVal symbol stopLossPriceRaw) else none))

/-- One leg of the opening attempt (the async closure inside `Promise.all`,
`src/app/page.tsx` lines 381–433): look up credentials, submit the market
entry, then the take-profit and stop-loss triggers when their prices are
present, stopping at the first rejection. Returns the requests actually
sent to the exchange and the error the leg threw, if any. The `exch` oracle
answers whether the venue accepts a request. -/
def runLeg (users : List User) (exch : SubmitReq → Bool) (symbol : HedgeSymbol)
    (quantityVal price takeProfitPct stopLossPct lev : ℚ)
    (accountName : String) (entrySide : FuturesOrderSide) :
    List SubmitReq × Option OpenError :=
  match lookupUser users accountName with
  | none => ([], some (.credentialsMissing accountName))
  | some _ =>
    let closingSide := oppositeSide entrySide
    let marketReq : SubmitReq :=
      ⟨accountName, entrySide, .MARKET, some quantityVal, none, false⟩
    if !exch marketReq then ([marketReq], some .legSubmissionFailed)
    else
      let (takeProfitPrice, stopLossPrice) :=
        legTpSl entrySide price takeProfitPct stopLossPct lev symbol
      match takeProfitPrice, stopLossPrice with
      | some tp, some sl =>
        let tpReq : SubmitReq := ⟨accountName, closingSide, .TAKE_PROFIT_MARKET, none, some tp, true⟩
        if !exch tpReq then ([marketReq, tpReq], some .legSubmissionFailed)
        else
          let slReq : SubmitReq := ⟨accountName, closingSide, .STOP_MARKET, none, some sl, true⟩
          if !exch slReq then ([marketReq, tpReq, slReq], some .legSubmissionFailed)
          else ([marketReq, tpReq, slReq], none)
      | some tp, none =>
        let tpReq : SubmitReq := ⟨accountName, closingSide, .TAKE_PROFIT_MARKET, none, some tp, true⟩
        if !exch tpReq then ([marketReq, tpReq], some .legSubmissionFailed)
        else ([marketReq, tpReq], none)
      | none, some sl =>
        let slReq : SubmitReq := ⟨accountName, closingSide, .STOP_MARKET, none, some sl, true⟩
        if !exch slReq then ([marketReq, slReq], some .legSubmissionFailed)
        else ([marketReq, slReq], none)
      | none, none => ([marketReq], none)

/-- Result of an opening or closing attempt: the store contents afterwards,
the surfaced error, and every request sent to the exchange. -/
structure AttemptResult where
  users : List User
  orders : List HedgeOrder
  error : Option OpenError
  submitted : List SubmitReq
  deriving DecidableEq, Repr

/-- Model of `src/app/page.tsx` `handleOpen` (lines 321–446) as a pure function.
`inFlight` is `openingOrderId === order.id`; `acanp`/`bcanp` are the two
accounts' can-open sizes, `aLevel`/`bLevel` their leverages; `price?` is
`prices[order.symbol]`; `coin` is `Math.random() > 0.5` (swapping the sides);
`exch` is the venue's accept/reject oracle; `timestamp` stamps the status
update. Both legs run to completion regardless of the other's outcome
(`Promise.all`); the store is only touched when every leg succeeds. -/
def handleOpenF (users : List User) (orders : List HedgeOrder) (order : HedgeOrder)
    (acanp bcanp aLevel bLevel : ℚ) (price? : Option ℚ) (coin : Bool)
    (inFlight : Bool) (exch : SubmitReq → Bool) (timestamp : String) : AttemptResult :=
  if inFlight then ⟨users, orders, none, []⟩
  else
    let amount := order.amount
    let maxCanPosition := min acanp bcanp * (9 / 10)
    if aLevel ≠ bLevel then ⟨users, orders, some .leverageMismatch, []⟩
    else if amount ≤ 0 then ⟨users, orders, some .invalidAmount, []⟩
    else if maxCanPosition < amount then
      ⟨users, orders, some (.insufficientMargin maxCanPosition), []⟩
    else
      match price? with
      | none => ⟨users, orders, some .priceUnavailable, []⟩
      | some price =>
        let quantity := formatQuantityVal order.symbol amount
        let aSide : FuturesOrderSide := if coin then .SELL else .BUY
        let bSide := oppositeSide aSide
        let legA := runLeg users exch order.symbol quantity price
          order.takeProfit order.stopLoss aLevel order.primaryAccount aSide
        let legB := runLeg users exch order.symbol quantity price
          order.takeProfit order.stopLoss aLevel order.hedgeAccount bSide
        let submitted := legA.1 ++ legB.1
        match legA.2, legB.2 with
        | none, none =>
          ⟨updateUserF (updateUserF users order.primaryAccount order.amount)
              order.hedgeAccount order.amount,
            setOrderStatusF orders order.id .open timestamp, none, submitted⟩
        | some e, _ => ⟨users, orders, some e, submitted⟩
        | none, some e => ⟨users, orders, some e, submitted⟩

/-- Model of `src/lib/common.ts` `MARKET_SYMBOL_MAP`. -/
def MARKET_SYMBOL_MAP : HedgeSymbol → String
  | .BTC => "BTCUSDT"
  | .ETH => "ETHUSDT"
  | .SOL => "SOLUSDT"

/-- Model of `src/app/page.tsx` `resolveCloseSide` (lines 138–150): the side of the
reduce-only order that flattens a position. -/
def resolveCloseSide (p : AccountPosition) : Option FuturesOrderSide :=
  match p.positionSide with
  | .LONG => some .SELL
  | .SHORT => some .BUY
  | .BOTH =>
    if p.positionAmt = 0 then none
    else if 0 < p.positionAmt then some .SELL
    else some .BUY

/-- A `closeFuturesPosition` request (`src/services/api.ts` lines 230–260):
a reduce-only market order sized to the position's absolute size. Position
symbols are modelled already uppercased, as the venue reports them. -/
structure CloseReq where
  symbol : String
  side : FuturesOrderSide
  quantity : ℚ
  deriving DecidableEq, Repr

/-- Model of `src/app/page.tsx` `closeAccountPositions` (lines 177–220): build one
close request per open position of the account on the symbol. Missing
credentials set a form error and return; a missing live snapshot returns
silently. The function never throws: `closeFuturesPosition` catches every
rejection internally and resolves `false`, and its boolean result is
discarded by the caller. -/
def closeAccountPositionsF (users : List User)
    (accountMap : String → Option (List AccountPosition))
    (accountName marketSymbol : String) : List CloseReq × Option OpenError :=
  match lookupUser users accountName with
  | none => ([], some (.credentialsMissing accountName))
  | some _ =>
    match accountMap accountName with
    | none => ([], none)
    | some positions =>
      let openPositions := positions.filter fun p =>
        p.symbol = marketSymbol ∧ 0 < |p.positionAmt|
      let tasks := openPositions.filterMap fun p =>
        match resolveCloseSide p with
        | none => none
        | some side =>
          if |p.positionAmt| < 1 / 100000000 then none
          else some (⟨marketSymbol, side, |p.positionAmt|⟩ : CloseReq)
      (tasks, none)

/-- Result of a closing attempt: the store afterwards, the surfaced form
error, the reduce-only requests sent, and the venue's (ignored) replies. -/
structure CloseResult where
  users : List User
  orders : List HedgeOrder
  error : Option OpenError
  closeReqs : List CloseReq
  venueReplies : List Bool
  deriving DecidableEq, Repr

/-- Model of `src/app/page.tsx` `handleClose` (lines 448–469) as a pure function.
`venue` answers whether the exchange accepts each reduce-only close; the
replies are recorded but — as in the source, where `closeFuturesPosition`
resolves `false` instead of rejecting — they never influence the control
flow: after both accounts' close steps the order status is set to `closed`
and both accounts' statistics are bumped by `order.amount`. -/
def handleCloseF (users : List User) (orders : List HedgeOrder) (order : HedgeOrder)
    (accountMap : String → Option (List AccountPosition)) (venue : CloseReq → Bool)
    (inFlight : Bool) (timestamp : String) : CloseResult :=
  if inFlight then ⟨users, orders, none, [], []⟩
  else
    let marketSymbol := MARKET_SYMBOL_MAP order.symbol
    let stepA := closeAccountPositionsF users accountMap order.primaryAccount marketSymbol
    let stepB := closeAccountPositionsF users accountMap order.hedgeAccount marketSymbol
    let closeReqs := stepA.1 ++ stepB.1
    ⟨updateUserF (updateUserF users order.primaryAccount order.amount)
        order.hedgeAccount order.amount,
      setOrderStatusF orders order.id .closed timestamp,
      stepA.2 <|> stepB.2, closeReqs, closeReqs.map venue⟩

/-- Randomness source for `Math.random`: draw `t` gives an arbitrary natural
number; `randBelow r t m` models `Math.floor(Math.random() * m)` ∈ `[0, m)`. -/
abbrev RandSrc := ℕ → ℕ

/-- Value of `Math.floor(Math.random() * m)` for the `t`-th draw. -/
def randBelow (r : RandSrc) (t m : ℕ) : ℕ :=
  r t % m

/-- Inner loop of the Fisher–Yates `shuffle` (`src/lib/common.ts` lines
14–20): at index `i = k + 1` (counting down to 1) swap with a random index
`j ∈ [0, i]`, consuming one draw per step. -/
def shuffleGo (r : RandSrc) : ℕ → ℕ → Array String → Array String × ℕ
  | 0, t, arr => (arr, t)
  | k + 1, t, arr => shuffleGo r k (t + 1) (arr.swap! (k + 1) (randBelow r t (k + 2)))

/-- Model of `src/lib/common.ts` `shuffle`, threading the draw counter. -/
def shuffleF (r : RandSrc) (t : ℕ) (l : List String) : List String × ℕ :=
  let res := shuffleGo r (l.length - 1) t l.toArray
  (res.1.toList, res.2)

/-- Model of `src/lib/common.ts` `isValidGroup` (lines 23–33): no ordered pair of two
group members (in group order) is already in `usedPairs`. `usedPairs` is
modelled as the list of ordered pairs `(a, b)` with `b ∈ usedPairs.get(a)`. -/
def isValidGroup (usedPairs : List (String × String)) : List String → Bool
  | [] => true
  | a :: rest => rest.all (fun b => !usedPairs.contains (a, b)) && isValidGroup usedPairs rest

/-- The ordered pairs `updateWeightsAndPairs` records for a group
(`src/lib/common.ts` lines 47–53): both directions of every pair of members
at distinct positions. -/
def groupPairs : List String → List (String × String)
  | [] => []
  | a :: rest => rest.map (fun b => (a, b)) ++ rest.map (fun b => (b, a)) ++ groupPairs rest

/-- Pointwise update of the weight map. -/
def bumpWeight (w : String → ℚ) (name : String) (d : ℚ) : String → ℚ :=
  fun n => if n = name then w n + d else w n

/-- Weight update for an emitted 3-group (`src/lib/common.ts` lines 41–45):
the first account gains 1, the other two gain 0.5 each. -/
def updateWeights3 (w : String → ℚ) (a b c : String) : String → ℚ :=
  bumpWeight (bumpWeight (bumpWeight w a 1) b (1 / 2)) c (1 / 2)

/-- Model of `availableAccounts.sort((a, b) => weights.get(a.name) - weights.get(b.name))`:
stable ascending sort by weight. -/
def sortByWeight (w : String → ℚ) (l : List String) : List String :=
  l.mergeSort fun a b => decide (w a ≤ w b)

/-- Removal of accounts whose weight reached 15 (`src/lib/common.ts` lines
112–117): for each group member in order, delete its first occurrence from
the available pool when its weight is ≥ 15. -/
def removeHeavy (w : String → ℚ) (avail : List String) (g : List String) : List String :=
  g.foldl (fun av n => if 15 ≤ w n then av.erase n else av) avail

/-- One candidate pass of the group search (`src/lib/common.ts` lines
87–99): for each index `i` into the shuffled pool, take that account, shuffle
the remaining accounts, take two partners, and accept the triple if it has
no used pair. Returns the found group (as the list `[first, partner₁,
partner₂]`) and the advanced draw counter. -/
def findGroupAux (r : RandSrc) (usedPairs : List (String × String)) (shuffled : List String) :
    List ℕ → ℕ → Option (List String) × ℕ
  | [], t => (none, t)
  | i :: is, t =>
    match shuffled.get? i with
    | none => (none, t)
    | some candidate =>
      let remaining := shuffled.eraseIdx i
      let res := shuffleF r t remaining
      let partners := res.1.take 2
      let potentialGroup := candidate :: partners
      if potentialGroup.length = 3 ∧ isValidGroup usedPairs potentialGroup then
        (some potentialGroup, res.2)
      else findGroupAux r usedPairs shuffled is res.2

/-- The full search over every candidate index. -/
def findGroup (r : RandSrc) (usedPairs : List (String × String)) (shuffled : List String)
    (t : ℕ) : Option (List String) × ℕ :=
  findGroupAux r usedPairs shuffled (List.range shuffled.length) t

/-- The emitted `groupObj` (`src/lib/common.ts` lines 103–107). -/
structure GroupObj where
  primaryAccount : String
  hedgeAccount : String
  hedgeAccount2 : String
  deriving DecidableEq, Repr

/-- Membership of an account name in an emitted group. -/
def memG (a : String) (g : GroupObj) : Prop :=
  a = g.primaryAccount ∨ a = g.hedgeAccount ∨ a = g.hedgeAccount2

instance (a : String) (g : GroupObj) : Decidable (memG a g) := by
  unfold memG
  infer_instance

/-- State of one `generateGroups` invocation (`weights`, `usedPairs`,
`availableAccounts`, the emitted groups, and the draw counter). -/
structure GState where
  weights : String → ℚ
  usedPairs : List (String × String)
  available : List String
  groups : List GroupObj
  t : ℕ

/-- The `while` loop of `generateGroups` (`src/lib/common.ts` lines 69–123),
with the iteration ceiling as structural fuel. Each round: stop when fewer
than 2 accounts remain; sort by weight; stop when the lowest weight reached 8
and every weight is ≥ 6; otherwise shuffle, search for a valid triple, and on
success emit it, add its pairs, update weights, and drop members whose weight
reached 15. A failed search continues to the next round (`groupSize` is
always 3, so the 2-account fallback branch is dead). -/
def genLoop (r : RandSrc) : ℕ → GState → GState
  | 0, st => st
  | fuel + 1, st =>
    if st.available.length < 2 then st
    else
      let sorted := sortByWeight st.weights st.available
      if 8 ≤ st.weights (sorted.headD "") ∧ ∀ a ∈ sorted, 6 ≤ st.weights a then
        { st with available := sorted }
      else
        let res := shuffleF r st.t sorted
        match findGroup r st.usedPairs res.1 res.2 with
        | (some g, t2) =>
          match g with
          | [a, b, c] =>
            genLoop r fuel
              { weights := updateWeights3 st.weights a b c
                usedPairs := st.usedPairs ++ groupPairs [a, b, c]
                available := removeHeavy (updateWeights3 st.weights a b c) sorted [a, b, c]
                groups := st.groups ++ [⟨a, b, c⟩]
                t := t2 }
          | _ => genLoop r fuel { st with available := sorted, t := t2 }
        | (none, t2) => genLoop r fuel { st with available := sorted, t := t2 }

/-- Model of `src/lib/common.ts` `generateGroups` (lines 57–126): run the loop from
fresh weights and pair records with the 100000-iteration ceiling. -/
def generateGroups (r : RandSrc) (accounts : List String) : List GroupObj :=
  (genLoop r 100000 ⟨fun _ => 0, [], accounts, [], 0⟩).groups

/-- Modelled from the spec: no code under `src/` implements the two-hedge-
account size split (`handleOpen` sizes a single hedge leg; `hedgeAccount2` is
only declared and grouped, never sized). Spec §4.1 step 3: "If there are two
hedge accounts, size is split between them: the first hedge leg receives a
random fraction of the total in the inclusive range [30%, 60%]; the second
receives the remainder." Here `r` is the drawn fraction. -/
def splitHedgeQuantity (q r : ℚ) : ℚ × ℚ :=
  (r * q, q - r * q)

/-! ## Helper lemmas -/

lemma updateUserF_getElem? (users : List User) (name : String) (vol : ℚ) (i : ℕ) :
    (updateUserF users name vol)[i]? = (users[i]?).map fun u =>
      if u.name = name then { u with vol := u.vol + vol, txs := u.txs + 1 } else u := by
  simp [updateUserF]

lemma abs_formatWithPrecisionVal_sub_le (y : ℚ) (d : ℕ) :
    |formatWithPrecisionVal y d - y| ≤ 1 / (2 * 10 ^ d) := by
  have hp : (0 : ℚ) < 10 ^ d := by positivity
  have h1 : (⌊y * 10 ^ d + 1 / 2⌋ : ℚ) ≤ y * 10 ^ d + 1 / 2 := Int.floor_le _
  have h2 : y * 10 ^ d + 1 / 2 < ⌊y * 10 ^ d + 1 / 2⌋ + 1 := Int.lt_floor_add_one _
  have key : |(⌊y * 10 ^ d + 1 / 2⌋ : ℚ) - y * 10 ^ d| ≤ 1 / 2 := by
    rw [abs_le]
    constructor <;> linarith
  have he : formatWithPrecisionVal y d - y = ((⌊y * 10 ^ d + 1 / 2⌋ : ℚ) - y * 10 ^ d) / 10 ^ d := by
    rw [formatWithPrecisionVal]
    field_simp
    ring
  rw [he, abs_div, abs_of_pos hp]
  calc |(⌊y * 10 ^ d + 1 / 2⌋ : ℚ) - y * 10 ^ d| / 10 ^ d
      ≤ (1 / 2) / 10 ^ d := by gcongr
    _ = 1 / (2 * 10 ^ d) := by ring

/-! ## C10 — keyed store mutations are frame-preserving -/

/-- C10: every keyed store mutation is frame-preserving: `updateUser` leaves
every user with a different name exactly unchanged, and `updateOrder`,
`setOrderStatus` and `deleteOrder` leave every order with a different id
exactly unchanged. -/
theorem store_mutations_frame_preserving
    (users : List User) (name : String) (vol : ℚ)
    (orders : List HedgeOrder) (oid : String) (d : HedgeOrderDraftUpdates)
    (status : HedgeOrderStatus) (ts1 ts2 : String) :
    (∀ (i : ℕ) (u : User), users[i]? = some u → u.name ≠ name →
      (updateUserF users name vol)[i]? = some u) ∧
    (∀ (i : ℕ) (o : HedgeOrder), orders[i]? = some o → o.id ≠ oid →
      (updateOrderF orders oid d ts1)[i]? = some o) ∧
    (∀ (i : ℕ) (o : HedgeOrder), orders[i]? = some o → o.id ≠ oid →
      (setOrderStatusF orders oid status ts2)[i]? = some o) ∧
    (∀ o : HedgeOrder, o.id ≠ oid → (o ∈ deleteOrderF orders oid ↔ o ∈ orders)) := by
  refine ⟨?_, ?_, ?_, ?_⟩
  · intro i u hu hne
    simp [updateUserF, hu, hne]
  · intro i o ho hne
    simp [updateOrderF, ho, hne]
  · intro i o ho hne
    simp [setOrderStatusF, ho, hne]
  · intro o hne
    simp [deleteOrderF, hne]

/-- Witness for C10 at concrete stores. -/
theorem store_mutations_frame_preserving_witness :
    (updateUserF [⟨"A", "ka", "sa", 0, 0⟩, ⟨"B", "kb", "sb", 0, 0⟩] "A" 5)[1]? =
      some ⟨"B", "kb", "sb", 0, 0⟩ ∧
    (updateOrderF [⟨"o1", .BTC, "A", "B", none, 1, 50, 50, .draft, "c", "u"⟩] "o2" {} "t1")[0]? =
      some ⟨"o1", .BTC, "A", "B", none, 1, 50, 50, .draft, "c", "u"⟩ ∧
    (setOrderStatusF [⟨"o1", .BTC, "A", "B", none, 1, 50, 50, .draft, "c", "u"⟩] "o2" .open "t2")[0]? =
      some ⟨"o1", .BTC, "A", "B", none, 1, 50, 50, .draft, "c", "u"⟩ ∧
    ((⟨"o1", .BTC, "A", "B", none, 1, 50, 50, .draft, "c", "u"⟩ : HedgeOrder) ∈
        deleteOrderF [⟨"o1", .BTC, "A", "B", none, 1, 50, 50, .draft, "c", "u"⟩] "o2" ↔
      (⟨"o1", .BTC, "A", "B", none, 1, 50, 50, .draft, "c", "u"⟩ : HedgeOrder) ∈
        [(⟨"o1", .BTC, "A", "B", none, 1, 50, 50, .draft, "c", "u"⟩ : HedgeOrder)]) := by
  have h := store_mutations_frame_preserving
    [⟨"A", "ka", "sa", 0, 0⟩, ⟨"B", "kb", "sb", 0, 0⟩] "A" 5
    [⟨"o1", .BTC, "A", "B", none, 1, 50, 50, .draft, "c", "u"⟩] "o2" {} .open "t1" "t2"
  exact ⟨h.1 1 _ rfl (by decide), h.2.1 0 _ rfl (by decide),
    h.2.2.1 0 _ rfl (by decide), h.2.2.2 _ (by decide)⟩

/-! ## C2 — the derived trade state -/

/-- C2 counterexample: signed sizes `+2` and `-2` with last-update timestamps
3000 ms apart are reported as fully open by the code, while the claimed
condition (which requires the timestamps within 2000 ms) is false there. -/
theorem isOpen_timestamp_counterexample :
    isOpenB (some ⟨"BTCUSDT", 2, .BOTH, 0⟩) (some ⟨"BTCUSDT", -2, .BOTH, 3000⟩) = true ∧
    ¬ specFullyOpen ⟨"BTCUSDT", 2, .BOTH, 0⟩ ⟨"BTCUSDT", -2, .BOTH, 3000⟩ := by
  constructor
  · simp [isOpenB, posAmtOr0]
  · intro h
    have h4 := h.2.2.2
    norm_num at h4

/-- C2 amended: the derived trade state reports open exactly when both the
primary and hedge legs' signed position sizes are non-zero; neither the
0.001-unit sum tolerance nor the 2000 ms timestamp window is checked. -/
theorem isOpen_iff_both_sizes_nonzero (mainPos hedgePos : Option AccountPosition) :
    isOpenB mainPos hedgePos = true ↔
      posAmtOr0 mainPos ≠ 0 ∧ posAmtOr0 hedgePos ≠ 0 := by
  simp [isOpenB, abs_pos]

/-! ## C7 — numeric formatting -/

/-- C7 counterexample: the quantity `1/32 = 0.03125` at BTC's 4-digit
quantity precision formats to `0.0313` (`toFixed` rounds to nearest, ties
up), while truncation toward fewer decimals would give `0.0312`. -/
theorem formatQuantity_not_truncation_counterexample :
    formatQuantityVal .BTC (1 / 32) = 313 / 10000 ∧
    truncWithPrecisionVal (1 / 32) 4 = 312 / 10000 ∧
    formatQuantityVal .BTC (1 / 32) ≠ truncWithPrecisionVal (1 / 32) 4 := by
  have ha : formatQuantityVal .BTC (1 / 32) = 313 / 10000 := by
    have h0 : |(1 : ℚ) / 32| = 1 / 32 := by norm_num
    norm_num [formatQuantityVal, formatWithPrecisionVal, SYMBOL_PRECISION, h0]
  have hb : truncWithPrecisionVal (1 / 32) 4 = 312 / 10000 := by
    norm_num [truncWithPrecisionVal]
  refine ⟨ha, hb, ?_⟩
  rw [ha, hb]
  norm_num

/-- C7 amended: every quantity and trigger price is formatted to the
symbol's configured per-symbol decimal precision by rounding to the nearest
representable value (ties toward the larger value, the `toFixed` rule) with
trailing zeros removed — not by truncation: the result is an integer
multiple of `10^-d` at the configured digit count `d` and lies within half
of that step of the input. -/
theorem format_rounds_to_symbol_precision (sym : HedgeSymbol) (x : ℚ) :
    (∃ n : ℤ, formatQuantityVal sym x = n / 10 ^ (SYMBOL_PRECISION sym).quantity) ∧
    abs (formatQuantityVal sym x - |x|) ≤ 1 / (2 * 10 ^ (SYMBOL_PRECISION sym).quantity) ∧
    (∃ n : ℤ, formatPriceVal sym x = n / 10 ^ (SYMBOL_PRECISION sym).price) ∧
    |formatPriceVal sym x - x| ≤ 1 / (2 * 10 ^ (SYMBOL_PRECISION sym).price) := by
  refine ⟨⟨⌊|x| * 10 ^ (SYMBOL_PRECISION sym).quantity + 1 / 2⌋, rfl⟩,
    abs_formatWithPrecisionVal_sub_le |x| _,
    ⟨⌊x * 10 ^ (SYMBOL_PRECISION sym).price + 1 / 2⌋, rfl⟩,
    abs_formatWithPrecisionVal_sub_le x _⟩

/-! ## C5 — leverage mismatch -/

/-- C5: when the primary and hedge accounts report different leverage
values, `handleOpen` fails with the leverage-mismatch error before any
order is submitted to the exchange, regardless of the available margin, and
leaves both stores (hence the order's `draft` status) unchanged. -/
theorem handleOpen_leverage_mismatch (users : List User) (orders : List HedgeOrder)
    (order : HedgeOrder) (acanp bcanp aLevel bLevel : ℚ) (price? : Option ℚ)
    (coin : Bool) (exch : SubmitReq → Bool) (timestamp : String)
    (hne : aLevel ≠ bLevel) :
    handleOpenF users orders order acanp bcanp aLevel bLevel price? coin false exch timestamp =
      ⟨users, orders, some .leverageMismatch, []⟩ := by
  simp [handleOpenF, hne]

/-- Witness for C5: leverage 10 versus 20, with ample margin. -/
theorem handleOpen_leverage_mismatch_witness :
    handleOpenF [] [] ⟨"o1", .BTC, "A", "B", none, 1 / 100, 60, 60, .draft, "c", "u"⟩
        100 100 10 20 (some 50000) false false (fun _ => true) "t" =
      ⟨[], [], some .leverageMismatch, []⟩ :=
  handleOpen_leverage_mismatch [] [] _ 100 100 10 20 (some 50000) false (fun _ => true) "t"
    (by norm_num)

/-! ## C3 — the margin ceiling -/

lemma runLeg_error_not_margin (users : List User) (exch : SubmitReq → Bool)
    (symbol : HedgeSymbol) (q price tp sl lev : ℚ) (account : String)
    (side : FuturesOrderSide) (c : ℚ) :
    (runLeg users exch symbol q price tp sl lev account side).2 ≠
      some (.insufficientMargin c) := by
  unfold runLeg
  rcases lookupUser users account with _ | u
  · simp
  · dsimp only
    split
    · simp
    · rcases legTpSl side price tp sl lev symbol with ⟨_ | tp1, _ | sl1⟩ <;> dsimp only
      all_goals repeat' split
      all_goals simp

/-- C3 counterexample: requesting exactly the computed ceiling is accepted,
not rejected. With `canOpen = 1` on both sides the ceiling is
`min 1 1 × 0.9 = 0.9`; an order for exactly `0.9` opens successfully (no
`InsufficientMargin`, status becomes `open`). -/
theorem handleOpen_ceiling_accepted_counterexample :
    (handleOpenF [⟨"A", "ka", "sa", 0, 0⟩, ⟨"B", "kb", "sb", 0, 0⟩]
        [⟨"o1", .BTC, "A", "B", none, 9 / 10, 60, 60, .draft, "c", "u"⟩]
        ⟨"o1", .BTC, "A", "B", none, 9 / 10, 60, 60, .draft, "c", "u"⟩
        1 1 10 10 (some 50000) false false (fun _ => true) "t").error = none ∧
    (⟨"o1", .BTC, "A", "B", none, 9 / 10, 60, 60, .draft, "c", "u"⟩ : HedgeOrder).amount =
      min 1 1 * (9 / 10) ∧
    (handleOpenF [⟨"A", "ka", "sa", 0, 0⟩, ⟨"B", "kb", "sb", 0, 0⟩]
        [⟨"o1", .BTC, "A", "B", none, 9 / 10, 60, 60, .draft, "c", "u"⟩]
        ⟨"o1", .BTC, "A", "B", none, 9 / 10, 60, 60, .draft, "c", "u"⟩
        1 1 10 10 (some 50000) false false (fun _ => true) "t").orders =
      [⟨"o1", .BTC, "A", "B", none, 9 / 10, 60, 60, .open, "c", "t"⟩] := by
  norm_num [handleOpenF, runLeg, legTpSl, lookupUser, oppositeSide, setOrderStatusF,
    updateUserF, formatQuantityVal, formatPriceVal, formatWithPrecisionVal, SYMBOL_PRECISION,
    (by decide : ("B" : String) ≠ "A"), (by decide : ("A" : String) ≠ "B"),
    (by norm_num : |(9 : ℚ) / 10| = 9 / 10)]

/-- C3 amended: an amount strictly above `min(primaryCanOpen, hedgeCanOpen)
× 0.9` is rejected with `InsufficientMargin` carrying the computed ceiling,
leaving both stores (hence the order's `draft` status) unchanged and nothing
submitted; an amount less than or equal to the ceiling — the ceiling itself
included — is never rejected for margin: the accepted range is `≤`, not the
claimed strict `<`. -/
theorem handleOpen_margin_check (users : List User) (orders : List HedgeOrder)
    (order : HedgeOrder) (acanp bcanp lev : ℚ) (price? : Option ℚ)
    (coin : Bool) (exch : SubmitReq → Bool) (timestamp : String) :
    (min acanp bcanp * (9 / 10) < order.amount → 0 < order.amount →
      handleOpenF users orders order acanp bcanp lev lev price? coin false exch timestamp =
        ⟨users, orders, some (.insufficientMargin (min acanp bcanp * (9 / 10))), []⟩) ∧
    (order.amount ≤ min acanp bcanp * (9 / 10) →
      ∀ c, (handleOpenF users orders order acanp bcanp lev lev price? coin false
        exch timestamp).error ≠ some (.insufficientMargin c)) := by
  constructor
  · intro hgt hpos
    simp [handleOpenF, not_le.mpr hpos, hgt]
  · intro hle c
    have hnlt : ¬ min acanp bcanp * (9 / 10) < order.amount := not_lt.mpr hle
    unfold handleOpenF
    rw [if_neg (by simp : ¬ (false = true)), if_neg (by simp : ¬ lev ≠ lev)]
    by_cases hA0 : order.amount ≤ 0
    · rw [if_pos hA0]
      simp
    · rw [if_neg hA0, if_neg hnlt]
      cases price? with
      | none => simp
      | some price =>
        dsimp only
        rcases hA : (runLeg users exch order.symbol (formatQuantityVal order.symbol order.amount)
            price order.takeProfit order.stopLoss lev order.primaryAccount
            (if coin then .SELL else .BUY)).2 with _ | eA
        all_goals rcases hB : (runLeg users exch order.symbol
            (formatQuantityVal order.symbol order.amount) price order.takeProfit order.stopLoss
            lev order.hedgeAccount (oppositeSide (if coin then .SELL else .BUY))).2 with _ | eB
        all_goals simp only [hA, hB]
        · simp
        · intro hcontra
          simp only [Option.some.injEq] at hcontra
          subst hcontra
          exact runLeg_error_not_margin _ _ _ _ _ _ _ _ _ _ _ hB
        · intro hcontra
          simp only [Option.some.injEq] at hcontra
          subst hcontra
          exact runLeg_error_not_margin _ _ _ _ _ _ _ _ _ _ _ hA
        · intro hcontra
          simp only [Option.some.injEq] at hcontra
          subst hcontra
          exact runLeg_error_not_margin _ _ _ _ _ _ _ _ _ _ _ hA

/-- Witness for C3 (amended): an amount of `1` above the `0.9` ceiling is
rejected with the ceiling attached; an amount of exactly the ceiling is not
rejected for margin. -/
theorem handleOpen_margin_check_witness :
    handleOpenF [] [] ⟨"o1", .BTC, "A", "B", none, 1, 60, 60, .draft, "c", "u"⟩
        1 1 10 10 (some 50000) false false (fun _ => true) "t" =
      ⟨[], [], some (.insufficientMargin (min 1 1 * (9 / 10))), []⟩ ∧
    ∀ c, (handleOpenF [⟨"A", "ka", "sa", 0, 0⟩, ⟨"B", "kb", "sb", 0, 0⟩] []
        ⟨"o2", .BTC, "A", "B", none, 9 / 10, 60, 60, .draft, "c", "u"⟩
        1 1 10 10 (some 50000) false false (fun _ => true) "t").error ≠
      some (.insufficientMargin c) := by
  constructor
  · exact (handleOpen_margin_check [] [] _ 1 1 10 (some 50000) false (fun _ => true) "t").1
      (by norm_num) (by norm_num)
  · exact (handleOpen_margin_check _ _ _ 1 1 10 (some 50000) false (fun _ => true) "t").2
      (by norm_num)

/-! ## C1 — account statistics after a successful opening attempt -/

/-- C1 counterexample: in the §8 scenario (amount `0.01`, price `50000`,
leverage 10, both cans `1`) the opening attempt succeeds and each account's
`vol` increases by `0.01` — the order's base-asset amount — not by
`quantity × price = 500`. -/
theorem handleOpen_volume_counterexample :
    (handleOpenF [⟨"A", "ka", "sa", 0, 0⟩, ⟨"B", "kb", "sb", 0, 0⟩]
        [⟨"o1", .BTC, "A", "B", none, 1 / 100, 60, 60, .draft, "c", "u"⟩]
        ⟨"o1", .BTC, "A", "B", none, 1 / 100, 60, 60, .draft, "c", "u"⟩
        1 1 10 10 (some 50000) false false (fun _ => true) "t").error = none ∧
    (handleOpenF [⟨"A", "ka", "sa", 0, 0⟩, ⟨"B", "kb", "sb", 0, 0⟩]
        [⟨"o1", .BTC, "A", "B", none, 1 / 100, 60, 60, .draft, "c", "u"⟩]
        ⟨"o1", .BTC, "A", "B", none, 1 / 100, 60, 60, .draft, "c", "u"⟩
        1 1 10 10 (some 50000) false false (fun _ => true) "t").users =
      [⟨"A", "ka", "sa", 1, 1 / 100⟩, ⟨"B", "kb", "sb", 1, 1 / 100⟩] ∧
    (handleOpenF [⟨"A", "ka", "sa", 0, 0⟩, ⟨"B", "kb", "sb", 0, 0⟩]
        [⟨"o1", .BTC, "A", "B", none, 1 / 100, 60, 60, .draft, "c", "u"⟩]
        ⟨"o1", .BTC, "A", "B", none, 1 / 100, 60, 60, .draft, "c", "u"⟩
        1 1 10 10 (some 50000) false false (fun _ => true) "t").orders =
      [⟨"o1", .BTC, "A", "B", none, 1 / 100, 60, 60, .open, "c", "t"⟩] ∧
    (1 : ℚ) / 100 ≠ 1 / 100 * 50000 := by
  norm_num [handleOpenF, runLeg, legTpSl, lookupUser, oppositeSide, setOrderStatusF,
    updateUserF, formatQuantityVal, formatPriceVal, formatWithPrecisionVal, SYMBOL_PRECISION,
    (by decide : ("B" : String) ≠ "A"), (by decide : ("A" : String) ≠ "B"),
    (by norm_num : |(1 : ℚ) / 100| = 1 / 100)]

/-- C1 amended: after a successful opening attempt (no error surfaced), each
participating account's `txs` is incremented by exactly 1 and its `vol` by
`order.amount` — the leg's base-asset quantity, not quantity × price; all
other users are untouched (frame part in `store_mutations_frame_preserving`). -/
theorem handleOpen_success_stats (users : List User) (orders : List HedgeOrder)
    (order : HedgeOrder) (acanp bcanp aLevel bLevel : ℚ) (price? : Option ℚ)
    (coin : Bool) (exch : SubmitReq → Bool) (timestamp : String)
    (hne : order.primaryAccount ≠ order.hedgeAccount)
    (hok : (handleOpenF users orders order acanp bcanp aLevel bLevel price? coin false exch
      timestamp).error = none) :
    (∀ (i : ℕ) (u : User), users[i]? = some u → u.name = order.primaryAccount →
      (handleOpenF users orders order acanp bcanp aLevel bLevel price? coin false exch
        timestamp).users[i]? =
        some { u with txs := u.txs + 1, vol := u.vol + order.amount }) ∧
    (∀ (i : ℕ) (u : User), users[i]? = some u → u.name = order.hedgeAccount →
      (handleOpenF users orders order acanp bcanp aLevel bLevel price? coin false exch
        timestamp).users[i]? =
        some { u with txs := u.txs + 1, vol := u.vol + order.amount }) := by
  unfold handleOpenF at hok ⊢
  rw [if_neg (by simp : ¬ (false = true))] at hok ⊢
  by_cases h1 : aLevel ≠ bLevel
  · rw [if_pos h1] at hok
    simp at hok
  · rw [if_neg h1] at hok ⊢
    by_cases h2 : order.amount ≤ 0
    · rw [if_pos h2] at hok
      simp at hok
    · rw [if_neg h2] at hok ⊢
      by_cases h3 : min acanp bcanp * (9 / 10) < order.amount
      · rw [if_pos h3] at hok
        simp at hok
      · rw [if_neg h3] at hok ⊢
        cases price? with
        | none => simp at hok
        | some price =>
          dsimp only at hok ⊢
          rcases hA : (runLeg users exch order.symbol
              (formatQuantityVal order.symbol order.amount) price order.takeProfit
              order.stopLoss aLevel order.primaryAccount
              (if coin then .SELL else .BUY)).2 with _ | eA
          all_goals rcases hB : (runLeg users exch order.symbol
              (formatQuantityVal order.symbol order.amount) price order.takeProfit
              order.stopLoss aLevel order.hedgeAccount
              (oppositeSide (if coin then .SELL else .BUY))).2 with _ | eB
          all_goals simp only [hA, hB] at hok ⊢
          · constructor
            · intro i u hu hname
              rw [updateUserF_getElem?, updateUserF_getElem?, hu]
              have hx : u.name ≠ order.hedgeAccount := hname ▸ hne
              simp [hname, hx, hne]
            · intro i u hu hname
              have hx : u.name ≠ order.primaryAccount := by
                rw [hname]
                exact fun hc => hne hc.symm
              rw [updateUserF_getElem?, updateUserF_getElem?, hu]
              simp [hname, hx, hne, hne.symm]
          · simp at hok
          · simp at hok
          · simp at hok

/-- Witness for C1 (amended) at the §8 scenario: both accounts end with
`txs = 1` and `vol = 0.01`. -/
theorem handleOpen_success_stats_witness :
    (handleOpenF [⟨"A", "ka", "sa", 0, 0⟩, ⟨"B", "kb", "sb", 0, 0⟩]
        [⟨"o1", .BTC, "A", "B", none, 1 / 100, 60, 60, .draft, "c", "u"⟩]
        ⟨"o1", .BTC, "A", "B", none, 1 / 100, 60, 60, .draft, "c", "u"⟩
        1 1 10 10 (some 50000) false false (fun _ => true) "t").users[0]? =
      some ⟨"A", "ka", "sa", 0 + 1, 0 + 1 / 100⟩ ∧
    (handleOpenF [⟨"A", "ka", "sa", 0, 0⟩, ⟨"B", "kb", "sb", 0, 0⟩]
        [⟨"o1", .BTC, "A", "B", none, 1 / 100, 60, 60, .draft, "c", "u"⟩]
        ⟨"o1", .BTC, "A", "B", none, 1 / 100, 60, 60, .draft, "c", "u"⟩
        1 1 10 10 (some 50000) false false (fun _ => true) "t").users[1]? =
      some ⟨"B", "kb", "sb", 0 + 1, 0 + 1 / 100⟩ := by
  have h := handleOpen_success_stats [⟨"A", "ka", "sa", 0, 0⟩, ⟨"B", "kb", "sb", 0, 0⟩]
    [⟨"o1", .BTC, "A", "B", none, 1 / 100, 60, 60, .draft, "c", "u"⟩]
    ⟨"o1", .BTC, "A", "B", none, 1 / 100, 60, 60, .draft, "c", "u"⟩
    1 1 10 10 (some 50000) false (fun _ => true) "t" (by decide)
    (by norm_num [handleOpenF, runLeg, legTpSl, lookupUser, oppositeSide, setOrderStatusF,
      updateUserF, formatQuantityVal, formatPriceVal, formatWithPrecisionVal, SYMBOL_PRECISION,
      (by decide : ("B" : String) ≠ "A"), (by decide : ("A" : String) ≠ "B"),
      (by norm_num : |(1 : ℚ) / 100| = 1 / 100)])
  exact ⟨h.1 0 _ rfl rfl, h.2 1 _ rfl rfl⟩

/-! ## C6 — take-profit / stop-loss trigger prices -/

/-- C6: for a leg with entry price `P`, leverage `L` and percentages
`tp`/`sl`, a `BUY` leg's take-profit trigger is `P × (1 + tp/100/L)` and its
stop-loss trigger `P × (1 − sl/100/L)`, a `SELL` leg inverts the signs, each
rounded to the symbol's price precision; a raw trigger price that is not
strictly positive is dropped, and the leg then submits no protective order
of that kind. -/
theorem legTpSl_formulas (price tp sl lev : ℚ) (symbol : HedgeSymbol) (_hl : 0 < lev) :
    (0 < price * (1 + tp / 100 / lev) →
      (legTpSl .BUY price tp sl lev symbol).1 =
        some (formatPriceVal symbol (price * (1 + tp / 100 / lev)))) ∧
    (price * (1 + tp / 100 / lev) ≤ 0 → (legTpSl .BUY price tp sl lev symbol).1 = none) ∧
    (0 < price * (1 - sl / 100 / lev) →
      (legTpSl .BUY price tp sl lev symbol).2 =
        some (formatPriceVal symbol (price * (1 - sl / 100 / lev)))) ∧
    (price * (1 - sl / 100 / lev) ≤ 0 → (legTpSl .BUY price tp sl lev symbol).2 = none) ∧
    (0 < price * (1 - tp / 100 / lev) →
      (legTpSl .SELL price tp sl lev symbol).1 =
        some (formatPriceVal symbol (price * (1 - tp / 100 / lev)))) ∧
    (price * (1 - tp / 100 / lev) ≤ 0 → (legTpSl .SELL price tp sl lev symbol).1 = none) ∧
    (0 < price * (1 + sl / 100 / lev) →
      (legTpSl .SELL price tp sl lev symbol).2 =
        some (formatPriceVal symbol (price * (1 + sl / 100 / lev)))) ∧
    (price * (1 + sl / 100 / lev) ≤ 0 → (legTpSl .SELL price tp sl lev symbol).2 = none) ∧
    (∀ (users : List User) (exch : SubmitReq → Bool) (q : ℚ) (account : String)
        (side : FuturesOrderSide),
      ((legTpSl side price tp sl lev symbol).1 = none →
        ∀ req ∈ (runLeg users exch symbol q price tp sl lev account side).1,
          req.reqType ≠ .TAKE_PROFIT_MARKET) ∧
      ((legTpSl side price tp sl lev symbol).2 = none →
        ∀ req ∈ (runLeg users exch symbol q price tp sl lev account side).1,
          req.reqType ≠ .STOP_MARKET)) := by
  refine ⟨fun h => by simp [legTpSl, h], fun h => by simp [legTpSl, not_lt.mpr h],
    fun h => by simp [legTpSl, h], fun h => by simp [legTpSl, not_lt.mpr h],
    fun h => by simp [legTpSl, h], fun h => by simp [legTpSl, not_lt.mpr h],
    fun h => by simp [legTpSl, h], fun h => by simp [legTpSl, not_lt.mpr h],
    fun users exch q account side => ⟨?_, ?_⟩⟩
  · intro htp
    unfold runLeg
    rcases hL : lookupUser users account with _ | u <;> simp only [hL]
    · simp
    · rcases hsl : (legTpSl side price tp sl lev symbol).2 with _ | p <;>
        simp only [htp, hsl] <;>
        (repeat' split) <;>
        simp
  · intro hsl
    unfold runLeg
    rcases hL : lookupUser users account with _ | u <;> simp only [hL]
    · simp
    · rcases htp : (legTpSl side price tp sl lev symbol).1 with _ | p <;>
        simp only [htp, hsl] <;>
        (repeat' split) <;>
        simp

/-- Witness for C6: a `BUY` leg at `P = 50000`, `L = 10`, `tp = 50` gets the
take-profit trigger `P × (1 + 0.5/10)`; the `SELL` leg mirrors the sign. -/
theorem legTpSl_formulas_witness :
    (legTpSl .BUY 50000 50 60 10 .BTC).1 =
      some (formatPriceVal .BTC (50000 * (1 + 50 / 100 / 10))) ∧
    (legTpSl .SELL 50000 50 60 10 .BTC).1 =
      some (formatPriceVal .BTC (50000 * (1 - 50 / 100 / 10))) := by
  have h := legTpSl_formulas 50000 50 60 10 .BTC (by norm_num)
  exact ⟨h.1 (by norm_num), h.2.2.2.2.1 (by norm_num)⟩

/-! ## C4 — closing swallows per-account failures -/

/-- C4: the claim is right and the code is wrong. `closeFuturesPosition`
catches every venue rejection and resolves `false`, and `handleClose`
ignores the boolean, so its failure branch is unreachable: here the venue
rejects both reduce-only closes (`venue` answers `false`), yet the order's
status is still set to `closed` and no close failure is surfaced, where the
spec requires a reported failure and an unchanged status. -/
theorem handleClose_swallows_venue_rejection :
    (handleCloseF [⟨"A", "ka", "sa", 0, 0⟩, ⟨"B", "kb", "sb", 0, 0⟩]
        [⟨"o1", .BTC, "A", "B", none, 1 / 100, 60, 60, .open, "c", "u"⟩]
        ⟨"o1", .BTC, "A", "B", none, 1 / 100, 60, 60, .open, "c", "u"⟩
        (fun n => if n = "A" then some [⟨"BTCUSDT", 2, .BOTH, 1000⟩]
          else if n = "B" then some [⟨"BTCUSDT", -2, .BOTH, 1500⟩] else none)
        (fun _ => false) false "t").orders =
      [⟨"o1", .BTC, "A", "B", none, 1 / 100, 60, 60, .closed, "c", "t"⟩] ∧
    (handleCloseF [⟨"A", "ka", "sa", 0, 0⟩, ⟨"B", "kb", "sb", 0, 0⟩]
        [⟨"o1", .BTC, "A", "B", none, 1 / 100, 60, 60, .open, "c", "u"⟩]
        ⟨"o1", .BTC, "A", "B", none, 1 / 100, 60, 60, .open, "c", "u"⟩
        (fun n => if n = "A" then some [⟨"BTCUSDT", 2, .BOTH, 1000⟩]
          else if n = "B" then some [⟨"BTCUSDT", -2, .BOTH, 1500⟩] else none)
        (fun _ => false) false "t").error = none ∧
    (handleCloseF [⟨"A", "ka", "sa", 0, 0⟩, ⟨"B", "kb", "sb", 0, 0⟩]
        [⟨"o1", .BTC, "A", "B", none, 1 / 100, 60, 60, .open, "c", "u"⟩]
        ⟨"o1", .BTC, "A", "B", none, 1 / 100, 60, 60, .open, "c", "u"⟩
        (fun n => if n = "A" then some [⟨"BTCUSDT", 2, .BOTH, 1000⟩]
          else if n = "B" then some [⟨"BTCUSDT", -2, .BOTH, 1500⟩] else none)
        (fun _ => false) false "t").closeReqs =
      [⟨"BTCUSDT", .SELL, 2⟩, ⟨"BTCUSDT", .BUY, 2⟩] ∧
    (handleCloseF [⟨"A", "ka", "sa", 0, 0⟩, ⟨"B", "kb", "sb", 0, 0⟩]
        [⟨"o1", .BTC, "A", "B", none, 1 / 100, 60, 60, .open, "c", "u"⟩]
        ⟨"o1", .BTC, "A", "B", none, 1 / 100, 60, 60, .open, "c", "u"⟩
        (fun n => if n = "A" then some [⟨"BTCUSDT", 2, .BOTH, 1000⟩]
          else if n = "B" then some [⟨"BTCUSDT", -2, .BOTH, 1500⟩] else none)
        (fun _ => false) false "t").venueReplies = [false, false] := by
  norm_num [handleCloseF, closeAccountPositionsF, lookupUser, resolveCloseSide,
    MARKET_SYMBOL_MAP, setOrderStatusF, updateUserF, List.filterMap_cons, List.filterMap_nil,
    (by decide : ("B" : String) ≠ "A"), (by decide : ("A" : String) ≠ "B"),
    (by norm_num : |(2 : ℚ)| = 2), (by norm_num : |(-2 : ℚ)| = 2)]

/-! ## C9 — the two-hedge-account size split (modelled from the spec) -/

/-- C9: for a two-hedge split of total quantity `Q` with drawn fraction
`r ∈ [30%, 60%]`, the first leg receives `r × Q` — within
`[0.30 × Q, 0.60 × Q]` — the second the exact remainder, and the two leg
quantities sum to `Q`, hence format (round) to exactly what `Q` itself
formats to at the symbol's configured quantity precision. -/
theorem splitHedgeQuantity_correct (symbol : HedgeSymbol) (q r : ℚ)
    (h1 : 3 / 10 ≤ r) (h2 : r ≤ 6 / 10) (hq : 0 ≤ q) :
    (splitHedgeQuantity q r).1 + (splitHedgeQuantity q r).2 = q ∧
    formatQuantityVal symbol ((splitHedgeQuantity q r).1 + (splitHedgeQuantity q r).2) =
      formatQuantityVal symbol q ∧
    3 / 10 * q ≤ (splitHedgeQuantity q r).1 ∧
    (splitHedgeQuantity q r).1 ≤ 6 / 10 * q := by
  have hsum : (splitHedgeQuantity q r).1 + (splitHedgeQuantity q r).2 = q := by
    simp [splitHedgeQuantity]
  refine ⟨hsum, by rw [hsum], ?_, ?_⟩
  · simpa [splitHedgeQuantity] using mul_le_mul_of_nonneg_right h1 hq
  · simpa [splitHedgeQuantity] using mul_le_mul_of_nonneg_right h2 hq

/-- Witness for C9 at `Q = 1`, `r = 1/2` on BTC. -/
theorem splitHedgeQuantity_correct_witness :
    (splitHedgeQuantity 1 (1 / 2)).1 + (splitHedgeQuantity 1 (1 / 2)).2 = 1 ∧
    formatQuantityVal .BTC ((splitHedgeQuantity 1 (1 / 2)).1 + (splitHedgeQuantity 1 (1 / 2)).2) =
      formatQuantityVal .BTC 1 ∧
    3 / 10 * 1 ≤ (splitHedgeQuantity 1 (1 / 2)).1 ∧
    (splitHedgeQuantity 1 (1 / 2)).1 ≤ 6 / 10 * 1 :=
  splitHedgeQuantity_correct .BTC 1 (1 / 2) (by norm_num) (by norm_num) (by norm_num)

/-! ## C8 — no unordered pair repeats across emitted groups -/

lemma isValidGroup_not_mem {ps : List (String × String)} :
    ∀ {g : List String}, isValidGroup ps g = true →
    (∀ x y, (x, y) ∈ ps → (y, x) ∈ ps) →
    ∀ {x y : String}, x ∈ g → y ∈ g → x ≠ y → (x, y) ∉ ps
  | [], _, _, _, _, hx, _, _ => by simp at hx
  | a :: rest, h, hsym, x, y, hx, hy, hxy => by
    rw [isValidGroup, Bool.and_eq_true, List.all_eq_true] at h
    rcases List.mem_cons.mp hx with rfl | hx2
    · rcases List.mem_cons.mp hy with rfl | hy2
      · exact absurd rfl hxy
      · intro hmem
        have hc := h.1 y hy2
        rw [Bool.not_eq_eq_eq_not, Bool.not_true, List.contains] at hc
        rw [List.elem_eq_true_of_mem hmem] at hc
        exact Bool.false_ne_true hc.symm
    · rcases List.mem_cons.mp hy with rfl | hy2
      · intro hmem
        have hc := h.1 x hx2
        rw [Bool.not_eq_eq_eq_not, Bool.not_true, List.contains] at hc
        rw [List.elem_eq_true_of_mem (hsym x y hmem)] at hc
        exact Bool.false_ne_true hc.symm
      · exact isValidGroup_not_mem h.2 hsym hx2 hy2 hxy

lemma groupPairs_mem : ∀ {g : List String} {x y : String},
    x ∈ g → y ∈ g → x ≠ y → (x, y) ∈ groupPairs g
  | [], x, y, hx, _, _ => by simp at hx
  | a :: rest, x, y, hx, hy, hxy => by
    rw [groupPairs]
    rcases List.mem_cons.mp hx with rfl | hx2
    · rcases List.mem_cons.mp hy with rfl | hy2
      · exact absurd rfl hxy
      · exact List.mem_append_left _ (List.mem_append_left _ (List.mem_map_of_mem _ hy2))
    · rcases List.mem_cons.mp hy with rfl | hy2
      · exact List.mem_append_left _ (List.mem_append_right _ (List.mem_map_of_mem _ hx2))
      · exact List.mem_append_right _ (groupPairs_mem hx2 hy2 hxy)

lemma groupPairs_symm : ∀ {g : List String} {x y : String},
    (x, y) ∈ groupPairs g → (y, x) ∈ groupPairs g
  | [], x, y, h => by simp [groupPairs] at h
  | a :: rest, x, y, h => by
    rw [groupPairs] at h ⊢
    rcases List.mem_append.mp h with h1 | h2
    · rcases List.mem_append.mp h1 with h3 | h4
      · obtain ⟨b, hb, heq⟩ := List.mem_map.mp h3
        rw [Prod.mk.injEq] at heq
        obtain ⟨rfl, rfl⟩ := heq
        exact List.mem_append_left _ (List.mem_append_right _ (List.mem_map_of_mem _ hb))
      · obtain ⟨b, hb, heq⟩ := List.mem_map.mp h4
        rw [Prod.mk.injEq] at heq
        obtain ⟨rfl, rfl⟩ := heq
        exact List.mem_append_left _ (List.mem_append_left _ (List.mem_map_of_mem _ hb))
    · exact List.mem_append_right _ (groupPairs_symm h2)

lemma findGroupAux_valid {r : RandSrc} {ps : List (String × String)}
    {shuffled : List String} :
    ∀ {idxs : List ℕ} {t : ℕ} {g : List String} {t2 : ℕ},
    findGroupAux r ps shuffled idxs t = (some g, t2) →
    isValidGroup ps g = true ∧ g.length = 3
  | [], t, g, t2, h => by simp [findGroupAux] at h
  | i :: is, t, g, t2, h => by
    rw [findGroupAux] at h
    rcases hg : shuffled.get? i with _ | cand
    · rw [hg] at h
      simp at h
    · rw [hg] at h
      dsimp only at h
      split at h
      · rename_i hcond
        rw [Prod.mk.injEq, Option.some.injEq] at h
        obtain ⟨rfl, rfl⟩ := h
        exact ⟨hcond.2, hcond.1⟩
      · exact findGroupAux_valid h

/-- Two emitted groups share no unordered pair of distinct names. -/
def noSharedPair (g1 g2 : GroupObj) : Prop :=
  ∀ x y, x ≠ y → memG x g1 → memG y g1 → ¬(memG x g2 ∧ memG y g2)

/-- Loop invariant of `generateGroups`: the recorded pairs are symmetric,
every pair of an emitted group is recorded, and no two emitted groups share
a pair. -/
def GInv (st : GState) : Prop :=
  (∀ x y, (x, y) ∈ st.usedPairs → (y, x) ∈ st.usedPairs) ∧
  (∀ g ∈ st.groups, ∀ x y, x ≠ y → memG x g → memG y g → (x, y) ∈ st.usedPairs) ∧
  st.groups.Pairwise noSharedPair

lemma memG_iff_mem (x a b c : String) : memG x ⟨a, b, c⟩ ↔ x ∈ [a, b, c] := by
  simp [memG]

lemma GInv_emit {ps : List (String × String)} {groups : List GroupObj}
    (hsym : ∀ x y, (x, y) ∈ ps → (y, x) ∈ ps)
    (hcov : ∀ g ∈ groups, ∀ x y, x ≠ y → memG x g → memG y g → (x, y) ∈ ps)
    (hpw : groups.Pairwise noSharedPair)
    {a b c : String} (hvalid : isValidGroup ps [a, b, c] = true) :
    (∀ x y, (x, y) ∈ ps ++ groupPairs [a, b, c] → (y, x) ∈ ps ++ groupPairs [a, b, c]) ∧
    (∀ g ∈ groups ++ [(⟨a, b, c⟩ : GroupObj)], ∀ x y, x ≠ y → memG x g → memG y g →
      (x, y) ∈ ps ++ groupPairs [a, b, c]) ∧
    (groups ++ [(⟨a, b, c⟩ : GroupObj)]).Pairwise noSharedPair := by
  refine ⟨?_, ?_, ?_⟩
  · intro x y hxy
    rcases List.mem_append.mp hxy with h1 | h2
    · exact List.mem_append_left _ (hsym x y h1)
    · exact List.mem_append_right _ (groupPairs_symm h2)
  · intro g hg x y hxy hx hy
    rcases List.mem_append.mp hg with h1 | h2
    · exact List.mem_append_left _ (hcov g h1 x y hxy hx hy)
    · have : g = (⟨a, b, c⟩ : GroupObj) := by simpa using h2
      subst this
      exact List.mem_append_right _
        (groupPairs_mem ((memG_iff_mem x a b c).mp hx) ((memG_iff_mem y a b c).mp hy) hxy)
  · rw [List.pairwise_append]
    refine ⟨hpw, List.pairwise_singleton _ _, ?_⟩
    intro g1 hg1 g2 hg2
    have hg2e : g2 = (⟨a, b, c⟩ : GroupObj) := by simpa using hg2
    subst hg2e
    intro x y hxy hx1 hy1 hmem2
    have hrec := hcov g1 hg1 x y hxy hx1 hy1
    exact isValidGroup_not_mem hvalid hsym
      ((memG_iff_mem x a b c).mp hmem2.1) ((memG_iff_mem y a b c).mp hmem2.2) hxy hrec

lemma genLoop_inv (r : RandSrc) : ∀ (fuel : ℕ) (st : GState), GInv st →
    GInv (genLoop r fuel st)
  | 0, st, h => h
  | fuel + 1, st, h => by
    rw [genLoop]
    split
    · exact h
    · dsimp only
      split
      · exact h
      · split
        · rename_i g t2 heq
          split
          · rename_i a b c
            have hval := findGroupAux_valid heq
            apply genLoop_inv r fuel
            exact GInv_emit h.1 h.2.1 h.2.2 hval.1
          · exact genLoop_inv r fuel _ h
        · exact genLoop_inv r fuel _ h

/-- C8: across all groups emitted by a single `generateGroups` invocation,
no unordered pair of distinct account names appears together in more than
one emitted group, for every input account list and every randomness
source. -/
theorem generateGroups_no_pair_repeats (r : RandSrc) (accounts : List String) :
    (generateGroups r accounts).Pairwise
      (fun g1 g2 => ∀ x y, x ≠ y → memG x g1 → memG y g1 →
        ¬(memG x g2 ∧ memG y g2)) := by
  have h := genLoop_inv r 100000 ⟨fun _ => 0, [], accounts, [], 0⟩
    ⟨by simp, by simp, List.Pairwise.nil⟩
  exact h.2.2
